import Mathlib

/-!
Verification development for the AutoCheckin-Next check-in automation engine.

The Rust source (src-tauri/src/auth.rs, task.rs) is embedded shallowly:
HTML/network effects are factored out, so each function below takes the
already-fetched text (script blocks, card blocks, response bodies, poll JSON
fields) as input and models the pure scraping / classification logic that the
source performs on it.  Strings are modelled through their character lists
(Lean `String` wraps `List Char`), matching Rust `str::chars` semantics; the
contract substrings involved are ASCII or whole CJK characters, so byte-level
`contains` in Rust agrees with character-level containment here.
-/

namespace AutoCheckin

/-- Strip a literal character sequence from the front of a character list,
returning the remainder, or `none` when the literal is not a prefix.
Used to model literal fragments of the source's regexes. -/
def stripLit (lit s : List Char) : Option (List Char) :=
  if lit.isPrefixOf s then some (s.drop lit.length) else none

/-- `stripLit` consumes exactly the literal's length. -/
lemma stripLit_len {lit s r : List Char} (h : stripLit lit s = some r) :
    r.length + lit.length = s.length := by
  unfold stripLit at h
  split at h
  · rename_i hp
    injection h with h
    subst h
    have hle : lit.length ≤ s.length := (List.isPrefixOf_iff_prefix.mp hp).length_le
    simp only [List.length_drop]
    omega
  · exact absurd h (by simp)

/-- The remainder returned by `stripLit` is no longer than the input. -/
lemma stripLit_le {lit s r : List Char} (h : stripLit lit s = some r) :
    r.length ≤ s.length := by
  have := stripLit_len h
  omega

/-- Dropping a matched run never lengthens a list. -/
lemma length_dropWhile_le (p : Char → Bool) (l : List Char) :
    (l.dropWhile p).length ≤ l.length := by
  have h := congrArg List.length (List.takeWhile_append_dropWhile (p := p) (l := l))
  rw [List.length_append] at h
  omega

/-- Substring test on character lists: does the needle occur anywhere?
Models Rust `str::contains` with a literal pattern. -/
def listHas (needle : List Char) : List Char → Bool
  | [] => needle.isEmpty
  | s@(_ :: rest) => needle.isPrefixOf s || listHas needle rest

/-- Substring test on strings: `strHas hay needle` models `hay.contains(needle)`. -/
def strHas (hay needle : String) : Bool :=
  listHas needle.data hay.data

/-! ## auth.rs: `AuthHandler::extract_qr_params`

The source parses the login page, walks every `<script>` block, and for the
blocks whose text contains `"login.b8n.cn"` applies the regex
`https?://[^\s"']+` (first match) followed by `[?&](sess|tm|sign)=([^&]+)`
(all matches, inserted into a `HashMap`).  The embedding takes the list of
script-block text contents as input.  `\s` is modelled by `Char.isWhitespace`
(the contract URLs are ASCII, so the narrower class is immaterial). -/

/-- Characters that terminate the URL regex's `[^\s"']+` run. -/
def urlStop (c : Char) : Bool :=
  c.isWhitespace || c = '"' || c = Char.ofNat 39

/-- Match `https?://` at the head of the input (greedy optional `s`),
returning the remainder after the scheme. -/
def schemeSplit (s : List Char) : Option (List Char) :=
  match stripLit "https://".data s with
  | some r => some r
  | none => stripLit "http://".data s

/-- Attempt the URL regex `https?://[^\s"']+` anchored at the current
position; on success return the whole match (scheme plus run). -/
def tryUrl (s : List Char) : Option (List Char) :=
  match schemeSplit s with
  | none => none
  | some r =>
    let run := r.takeWhile (fun c => !(urlStop c))
    if run = [] then none
    else some (s.take (s.length - r.length) ++ run)

/-- First (leftmost) match of the URL regex in a script block, as in
`Regex::captures` on group 0. -/
def findUrl : List Char → Option (List Char)
  | [] => none
  | c :: rest =>
    match tryUrl (c :: rest) with
    | some u => some u
    | none => findUrl rest

/-- Try the alternation `sess|tm|sign` at the current position
(leftmost-first order, as the regex engine tries alternatives). -/
def keyAlt (s : List Char) : Option (String × List Char) :=
  match stripLit "sess".data s with
  | some r => some ("sess", r)
  | none =>
    match stripLit "tm".data s with
    | some r => some ("tm", r)
    | none =>
      match stripLit "sign".data s with
      | some r => some ("sign", r)
      | none => none

/-- The remainder returned by `keyAlt` is no longer than the input. -/
lemma keyAlt_le {s : List Char} {k : String} {r : List Char}
    (h : keyAlt s = some (k, r)) : r.length ≤ s.length := by
  unfold keyAlt at h
  repeat' split at h
  all_goals first
    | (injection h with h
       rename_i heq
       injection h with h1 h2
       subst h2
       exact stripLit_le heq)
    | exact absurd h (by simp)

/-- Attempt the parameter regex tail `(sess|tm|sign)=([^&]+)` right after a
`[?&]` character; on success return captured key, captured value, and the
remainder of the input after the match (the greedy value run stops at the
next `'&'`, which stays available for the following match). -/
def tryParam (s : List Char) : Option (String × String × List Char) :=
  match keyAlt s with
  | none => none
  | some (k, r) =>
    match stripLit ['='] r with
    | none => none
    | some r2 =>
      if r2.takeWhile (fun ch => ch ≠ '&') = [] then none
      else some (k, String.mk (r2.takeWhile (fun ch => ch ≠ '&')),
        r2.dropWhile (fun ch => ch ≠ '&'))

/-- A successful `tryParam` consumes at least one character. -/
lemma tryParam_lt {s : List Char} {k v : String} {r3 : List Char}
    (h : tryParam s = some (k, v, r3)) : r3.length < s.length := by
  unfold tryParam at h
  split at h
  · exact absurd h (by simp)
  · rename_i k0 r hk
    split at h
    · exact absurd h (by simp)
    · rename_i r2 hr
      split at h
      · exact absurd h (by simp)
      · simp only [Option.some.injEq, Prod.mk.injEq] at h
        obtain ⟨-, -, hr3⟩ := h
        have h1 : r.length ≤ s.length := keyAlt_le hk
        have h2 : r2.length + 1 = r.length := by simpa using stripLit_len hr
        have hdw : r3.length ≤ r2.length := hr3 ▸ length_dropWhile_le _ r2
        omega

/-- All matches of `[?&](sess|tm|sign)=([^&]+)` in left-to-right,
non-overlapping order (as `captures_iter`), fuel-indexed.  Each step either
advances one character or consumes a whole match, so fuel equal to the input
length (see `paramScan`) is always sufficient. -/
def paramScanAux : Nat → List Char → List (String × String)
  | 0, _ => []
  | _, [] => []
  | fuel + 1, c :: rest =>
    if c = '?' ∨ c = '&' then
      match tryParam rest with
      | some (k, v, r3) => (k, v) :: paramScanAux fuel r3
      | none => paramScanAux fuel rest
    else paramScanAux fuel rest

/-- All `(sess|tm|sign)=value` captures of a URL, in match order. -/
def paramScan (s : List Char) : List (String × String) :=
  paramScanAux s.length s

/-- `HashMap::insert` on an association-list model of the parameter map:
replace the value when the key is present, append otherwise. -/
def insertKV (m : List (String × String)) (k v : String) :
    List (String × String) :=
  if m.any (fun p => p.1 == k) then
    m.map (fun p => if p.1 == k then (k, v) else p)
  else m ++ [(k, v)]

/-- The parameter map built from all captures of a URL, as the source's
`HashMap` (later captures of the same key overwrite earlier ones). -/
def paramMap (url : List Char) : List (String × String) :=
  (paramScan url).foldl (fun m kv => insertKV m kv.1 kv.2) []

/-- `AuthHandler::extract_qr_params`, over the text contents of the page's
script blocks in document order: the first block that contains
`"login.b8n.cn"` and yields a URL-regex match determines the result; if no
block does, the extraction error is returned. -/
def extract_qr_params : List String → Except String (List (String × String))
  | [] => .error "Could not extract QR params"
  | sc :: rest =>
    if strHas sc "login.b8n.cn" then
      match findUrl sc.data with
      | some url => .ok (paramMap url)
      | none => extract_qr_params rest
    else extract_qr_params rest

/-! ## auth.rs: `AuthHandler::check_login`

The poll response JSON is modelled by its two duck-typed field reads:
`status` is the result of `get("status").as_i64()` and `url` the string
value of the `url` field when present.  (A present non-string `url` makes
the source panic on `unwrap`; that path is outside the model.)  The function
ignores its `_url` argument and polls `base_qr_url` directly; on completion
it issues one further GET whose response body is discarded, and returns a
fixed placeholder pair. -/

/-- Fields of the status-poll JSON the source reads. -/
structure PollResp where
  status : Option Int
  url : Option String
deriving DecidableEq

/-- `AuthHandler::base_qr_url`, fixed at construction. -/
def base_qr_url : String := "https://login.b8n.cn/qr/weixin/student/2"

/-- Rust `split('?')` on a character list: pieces between the `'?'`
occurrences. -/
def splitQ : List Char → List (List Char)
  | [] => [[]]
  | c :: rest =>
    if c = '?' then [] :: splitQ rest
    else
      match splitQ rest with
      | [] => [[c]]
      | piece :: pieces => (c :: piece) :: pieces

/-- The uid-login completion URL: the fixed base with the query-string tail
of the redirect URL appended (`redirect_url.split('?').nth(1).unwrap_or("")`). -/
def uidlogin_target (redirect : String) : String :=
  "https://bj.k8n.cn/student/uidlogin?" ++ String.mk ((splitQ redirect.data).getD 1 [])

/-- `AuthHandler::check_login`: the value returned to the caller.  The `u`
argument models the `_url` parameter, which the source never reads. -/
def check_login (_url : String) (resp : PollResp) : Option (String × String) :=
  if resp.status = some 1 then
    match resp.url with
    | some _ => some ("cookie_placeholder", "class_id_placeholder")
    | none => none
  else none

/-- The GET requests `check_login` issues, in order: the status poll against
the handler's fixed base QR URL, then (only on `status == 1` with a `url`
field) the uid-login completion GET. -/
def check_login_requests (_url : String) (resp : PollResp) : List String :=
  (base_qr_url ++ "?op=checklogin") ::
    (if resp.status = some 1 then
      match resp.url with
      | some redirect => [uidlogin_target redirect]
      | none => []
    else [])

/-! ## task.rs: `TaskExecutor::get_active_tasks`

The source parses the listing page, selects all `div.card-body` blocks, skips
every block whose raw markup contains the already-signed marker `已签`, and
for the remaining blocks inserts into a `HashSet` every capture of the three
regexes `punchcard_(\d+)`, `punch_pwd_frm_(\d+)` and `punch_gps\((\d+)\)`.
The embedding takes the list of raw card-block markup strings as input and
models the `HashSet` as a duplicate-free insertion list. -/

/-- Attempt one pattern `lit(\d+)close` anchored at the current position:
the literal head, a non-empty greedy digit run (the capture), then the
literal tail (empty for the two parenthesis-free patterns).  Returns the
captured digits and the remainder after the whole match. -/
def tryPat (lit close : List Char) (s : List Char) :
    Option (String × List Char) :=
  match stripLit lit s with
  | none => none
  | some r =>
    if r.takeWhile Char.isDigit = [] then none
    else
      match stripLit close (r.dropWhile Char.isDigit) with
      | none => none
      | some r3 => some (String.mk (r.takeWhile Char.isDigit), r3)

/-- A successful `tryPat` consumes at least one character. -/
lemma tryPat_lt {lit close s : List Char} {d : String} {r3 : List Char}
    (h : tryPat lit close s = some (d, r3)) : r3.length < s.length := by
  unfold tryPat at h
  split at h
  · exact absurd h (by simp)
  · rename_i r hr
    split at h
    · exact absurd h (by simp)
    · rename_i hds
      split at h
      · exact absurd h (by simp)
      · rename_i r3x h3
        simp only [Option.some.injEq, Prod.mk.injEq] at h
        obtain ⟨-, hr3⟩ := h
        have h1 : r.length ≤ s.length := stripLit_le hr
        have h2 : r3x.length ≤ (r.dropWhile Char.isDigit).length := stripLit_le h3
        have h4 : (r.takeWhile Char.isDigit).length +
            (r.dropWhile Char.isDigit).length = r.length := by
          have h0 := congrArg List.length
            (List.takeWhile_append_dropWhile (p := Char.isDigit) (l := r))
          rw [List.length_append] at h0
          exact h0
        have h5 : 0 < (r.takeWhile Char.isDigit).length :=
          List.length_pos.mpr hds
        subst hr3
        omega

/-- All captures of one id pattern in a block, in left-to-right
non-overlapping order (`captures_iter`), fuel-indexed; fuel equal to the
input length is always sufficient since every step strictly shrinks the
input. -/
def findPatAux (lit close : List Char) : Nat → List Char → List String
  | 0, _ => []
  | _, [] => []
  | fuel + 1, c :: rest =>
    match tryPat lit close (c :: rest) with
    | some (d, r3) => d :: findPatAux lit close fuel r3
    | none => findPatAux lit close fuel rest

/-- All captures of one id pattern in a block. -/
def findPat (lit close : List Char) (s : List Char) : List String :=
  findPatAux lit close s.length s

/-- The ids one card block yields: captures of `punchcard_(\d+)`, then
`punch_pwd_frm_(\d+)`, then `punch_gps\((\d+)\)`, in the order the source
inserts them. -/
def cardIds (card : String) : List String :=
  findPat "punchcard_".data [] card.data ++
    findPat "punch_pwd_frm_".data [] card.data ++
      findPat "punch_gps(".data [')'] card.data

/-- Does the raw card markup contain the already-signed marker `已签`? -/
def hasMarker (card : String) : Bool :=
  strHas card "已签"

/-- `HashSet::insert` on an insertion-list model of the id set: add the id
only when it is not already present. -/
def insertNoDup (l : List String) (a : String) : List String :=
  if a ∈ l then l else l ++ [a]

/-- Processing of one card block: a block containing the marker contributes
nothing (the source's `continue`); otherwise all its pattern captures are
inserted into the accumulated set. -/
def scanStep (acc : List String) (card : String) : List String :=
  if hasMarker card then acc else (cardIds card).foldl insertNoDup acc

/-- `TaskExecutor::get_active_tasks`, over the raw markup of the page's
`div.card-body` blocks in document order. -/
def getActiveTasks (cards : List String) : List String :=
  cards.foldl scanStep []

/-! ## task.rs: `TaskExecutor::perform_sign`

The submission response body is parsed and its full visible text extracted;
the embedding takes that extracted text as input.  The classification is:
any text containing `成功` or `Success` maps to the canonical success
message, all other texts map to an error carrying the first 50 characters of
the trimmed text. -/

/-- Rust `str::trim` on a character list: whitespace removed from both
ends. -/
def charTrim (s : List Char) : List Char :=
  ((s.dropWhile Char.isWhitespace).reverse.dropWhile Char.isWhitespace).reverse

/-- `TaskExecutor::perform_sign`, classification of the extracted response
text (`res_text` in the source). -/
def perform_sign_result (resText : String) : Except String String :=
  if strHas resText "成功" || strHas resText "Success" then .ok "签到成功"
  else .error (String.mk ((charTrim resText.data).take 50))

/-! ## task.rs: `TaskExecutor::execute`, per-opportunity notification

For each opportunity the source submits once, then sends exactly one WeCom
notification whose title depends on the outcome: `"<name> Check-in Result"`
when the submission succeeded or the outcome message contains `出错` or
`Error`, and `"<name> Check-in Failed"` otherwise.  The embedding takes the
per-opportunity extracted response texts as input. -/

/-- The outcome message logged and classified by `execute`: the payload of
either the `Ok` or the `Err` result. -/
def outcomeMsg : Except String String → String
  | .ok m => m
  | .error e => e

/-- The notification title `execute` chooses for one submission outcome. -/
def notifTitle (name : String) (result : Except String String) : String :=
  if (result.isOk && (strHas (outcomeMsg result) "成功" ||
        strHas (outcomeMsg result) "Success")) ||
      strHas (outcomeMsg result) "出错" || strHas (outcomeMsg result) "Error" then
    name ++ " Check-in Result"
  else name ++ " Check-in Failed"

/-- The notification titles dispatched by one task execution, one per
opportunity, where `respTexts` lists the extracted response text of each
opportunity's submission in processing order. -/
def executeNotifs (name : String) (respTexts : List String) : List String :=
  respTexts.map (fun t => notifTitle name (perform_sign_result t))

/-! ## task.rs: `TaskExecutor::send_wecom_notification`

The notifier takes the WeCom configuration plus the responses the transport
would give to its two HTTP calls (the token GET and the message-send POST),
each modelled by the duck-typed field the source reads (`access_token` as a
string, `errcode` as an integer), with `Except` capturing transport or JSON
decoding failure.  The result is paired with the number of HTTP calls
issued.  The Debug rendering of the raw send response inside the error
string is abstracted to the `errcode` field. -/

/-- `WeComConfig` from config.rs. -/
structure WeComConfig where
  enable : Bool
  corpid : String
  secret : String
  agentid : String
  touser : String
deriving DecidableEq

/-- The transport's behaviour for the two HTTP calls the notifier can
issue. -/
structure WeComTransport where
  tokenResp : Except String (Option String)
  sendResp : Except String (Option Int)

/-- `TaskExecutor::send_wecom_notification`: result together with the number
of HTTP calls issued.  Disabled configuration short-circuits before any
call. -/
def send_wecom_notification (wecom : WeComConfig) (tr : WeComTransport)
    (_title _content : String) : Except String Unit × Nat :=
  if !wecom.enable then (.ok (), 0)
  else
    match tr.tokenResp with
    | .error e => (.error e, 1)
    | .ok none => (.error "Failed to get access token", 1)
    | .ok (some _) =>
      match tr.sendResp with
      | .error e => (.error e, 2)
      | .ok (some 0) => (.ok (), 2)
      | .ok r => (.error ("WeCom Error: " ++ toString r), 2)

/-! ## Behavioural lemmas -/

/-- Membership after one `HashSet`-style insertion. -/
lemma mem_insertNoDup {l : List String} {a x : String} :
    x ∈ insertNoDup l a ↔ x ∈ l ∨ x = a := by
  unfold insertNoDup
  split
  · rename_i ha
    constructor
    · exact fun hx => Or.inl hx
    · rintro (hx | rfl)
      · exact hx
      · exact ha
  · simp [List.mem_append]

/-- `HashSet`-style insertion preserves freedom from duplicates. -/
lemma nodup_insertNoDup {l : List String} {a : String} (h : l.Nodup) :
    (insertNoDup l a).Nodup := by
  unfold insertNoDup
  split
  · exact h
  · rename_i ha
    refine List.Nodup.append h (List.nodup_singleton a) ?_
    intro x hx hx1
    rw [List.mem_singleton] at hx1
    subst hx1
    exact ha hx

/-- Membership in a fold of `HashSet`-style insertions. -/
lemma mem_foldl_insert (ids : List String) :
    ∀ (acc : List String) (x : String),
      x ∈ ids.foldl insertNoDup acc ↔ x ∈ acc ∨ x ∈ ids := by
  induction ids with
  | nil => intro acc x; simp
  | cons i is ih =>
    intro acc x
    rw [List.foldl_cons, ih, mem_insertNoDup, List.mem_cons]
    tauto

/-- A fold of `HashSet`-style insertions preserves freedom from
duplicates. -/
lemma nodup_foldl_insert (ids : List String) :
    ∀ acc : List String, acc.Nodup → (ids.foldl insertNoDup acc).Nodup := by
  induction ids with
  | nil => intro acc h; simpa using h
  | cons i is ih =>
    intro acc h
    rw [List.foldl_cons]
    exact ih _ (nodup_insertNoDup h)

/-- Membership in the scanner's accumulated set: an id is present exactly
when it was already accumulated or some processed block lacks the
already-signed marker and yields the id. -/
lemma mem_scanFold (cards : List String) :
    ∀ (acc : List String) (x : String),
      x ∈ cards.foldl scanStep acc ↔
        x ∈ acc ∨ ∃ c, c ∈ cards ∧ hasMarker c = false ∧ x ∈ cardIds c := by
  induction cards with
  | nil => intro acc x; simp
  | cons c cs ih =>
    intro acc x
    rw [List.foldl_cons, ih]
    unfold scanStep
    by_cases hm : hasMarker c = true
    · rw [if_pos hm]
      constructor
      · rintro (hx | ⟨c1, hc1, hm1, hx1⟩)
        · exact Or.inl hx
        · exact Or.inr ⟨c1, List.mem_cons_of_mem c hc1, hm1, hx1⟩
      · rintro (hx | ⟨c1, hc1, hm1, hx1⟩)
        · exact Or.inl hx
        · rcases List.mem_cons.mp hc1 with rfl | hc2
          · rw [hm] at hm1; cases hm1
          · exact Or.inr ⟨c1, hc2, hm1, hx1⟩
    · rw [if_neg hm]
      rw [Bool.not_eq_true] at hm
      rw [mem_foldl_insert]
      constructor
      · rintro ((hx | hx) | ⟨c1, hc1, hm1, hx1⟩)
        · exact Or.inl hx
        · exact Or.inr ⟨c, List.mem_cons_self c cs, hm, hx⟩
        · exact Or.inr ⟨c1, List.mem_cons_of_mem c hc1, hm1, hx1⟩
      · rintro (hx | ⟨c1, hc1, hm1, hx1⟩)
        · exact Or.inl (Or.inl hx)
        · rcases List.mem_cons.mp hc1 with rfl | hc2
          · exact Or.inl (Or.inr hx1)
          · exact Or.inr ⟨c1, hc2, hm1, hx1⟩

/-- The scanner's accumulated set stays free of duplicates. -/
lemma nodup_scanFold (cards : List String) :
    ∀ acc : List String, acc.Nodup → (cards.foldl scanStep acc).Nodup := by
  induction cards with
  | nil => intro acc h; simpa using h
  | cons c cs ih =>
    intro acc h
    rw [List.foldl_cons]
    refine ih _ ?_
    unfold scanStep
    split
    · exact h
    · exact nodup_foldl_insert _ _ h

/-- `extract_qr_params` fails exactly when no script block both contains the
login host substring and matches the URL regex. -/
lemma extract_error_iff (scripts : List String) :
    extract_qr_params scripts = .error "Could not extract QR params" ↔
      ∀ sc ∈ scripts,
        strHas sc "login.b8n.cn" = false ∨ findUrl sc.data = none := by
  induction scripts with
  | nil => simp [extract_qr_params]
  | cons sc rest ih =>
    simp only [extract_qr_params]
    by_cases hc : strHas sc "login.b8n.cn" = true
    · rw [if_pos hc]
      cases hu : findUrl sc.data with
      | some url =>
        constructor
        · intro h; cases h
        · intro h
          rcases h sc (List.mem_cons_self sc rest) with h1 | h1
          · rw [hc] at h1; cases h1
          · rw [hu] at h1; cases h1
      | none =>
        rw [ih]
        constructor
        · intro h x hx
          rcases List.mem_cons.mp hx with rfl | hx2
          · exact Or.inr hu
          · exact h x hx2
        · intro h x hx
          exact h x (List.mem_cons_of_mem sc hx)
    · rw [if_neg hc, ih]
      rw [Bool.not_eq_true] at hc
      constructor
      · intro h x hx
        rcases List.mem_cons.mp hx with rfl | hx2
        · exact Or.inl hc
        · exact h x hx2
      · intro h x hx
        exact h x (List.mem_cons_of_mem sc hx)

/-- A successful extraction comes from some script block that contains the
login host substring, and the returned map is the parameter map of the URL
the regex found there. -/
lemma extract_ok_exists (scripts : List String) (m : List (String × String))
    (h : extract_qr_params scripts = .ok m) :
    ∃ sc ∈ scripts, strHas sc "login.b8n.cn" = true ∧
      ∃ u, findUrl sc.data = some u ∧ m = paramMap u := by
  induction scripts with
  | nil => cases h
  | cons sc rest ih =>
    simp only [extract_qr_params] at h
    by_cases hc : strHas sc "login.b8n.cn" = true
    · rw [if_pos hc] at h
      cases hu : findUrl sc.data with
      | some url =>
        rw [hu] at h
        injection h with h
        exact ⟨sc, List.mem_cons_self sc rest, hc, url, hu, h.symm⟩
      | none =>
        rw [hu] at h
        obtain ⟨x, hx, h1, u, hu1, hm1⟩ := ih h
        exact ⟨x, List.mem_cons_of_mem sc hx, h1, u, hu1, hm1⟩
    · rw [if_neg hc] at h
      obtain ⟨x, hx, h1, u, hu1, hm1⟩ := ih h
      exact ⟨x, List.mem_cons_of_mem sc hx, h1, u, hu1, hm1⟩

/-- A successful submission always carries the canonical success message. -/
lemma perform_sign_ok {t m : String} (h : perform_sign_result t = .ok m) :
    m = "签到成功" := by
  unfold perform_sign_result at h
  split at h
  · injection h with h; exact h.symm
  · cases h

/-- The title `execute` dispatches for one opportunity, rephrased through
the outcome alone: success, or an explicit error marker in the outcome
message, selects the "Result" title; every other failure the "Failed"
title. -/
lemma notifTitle_eq (name t : String) :
    notifTitle name (perform_sign_result t) =
      if ((perform_sign_result t).isOk
          || strHas (outcomeMsg (perform_sign_result t)) "出错"
          || strHas (outcomeMsg (perform_sign_result t)) "Error") = true then
        name ++ " Check-in Result"
      else name ++ " Check-in Failed" := by
  unfold notifTitle
  cases hr : perform_sign_result t with
  | ok m =>
    have hm : m = "签到成功" := perform_sign_ok hr
    subst hm
    have h1 : strHas (outcomeMsg (Except.ok (ε := String) "签到成功")) "成功" = true := by
      decide
    simp [h1, Except.isOk]
  | error e =>
    simp [Except.isOk, Except.toBool, outcomeMsg]

/-! ## Claim theorems -/

/-- Claim C1, code evaluation: `check_login` never returns session data
captured from the completed login — every return value is either `none` or
the fixed pair `("cookie_placeholder", "class_id_placeholder")`, and in
particular a completed poll (`status == 1` with a `url` field) yields that
fixed placeholder text, not an authenticated cookie and class id. -/
theorem claim_C1_placeholder_result :
    (∀ (u : String) (resp : PollResp),
        check_login u resp = none ∨
          check_login u resp =
            some ("cookie_placeholder", "class_id_placeholder")) ∧
      check_login base_qr_url
          { status := some 1, url := some "https://x/y?foo=bar" } =
        some ("cookie_placeholder", "class_id_placeholder") := by
  constructor
  · intro u resp
    unfold check_login
    by_cases h : resp.status = some 1
    · rw [if_pos h]
      cases resp.url
      · exact Or.inl rfl
      · exact Or.inr rfl
    · rw [if_neg h]
      exact Or.inl rfl
  · rfl

/-- Claim C2, counterexample: a script block that contains the login host
substring and matches the URL regex, but whose URL carries none of the
`sess`, `tm`, `sign` parameters, makes `extract_qr_params` succeed with an
empty parameter map — extraction does not fail whenever the parameters are
missing. -/
theorem claim_C2_counterexample :
    extract_qr_params ["see http://login.b8n.cn/x"] = .ok [] ∧
      strHas "see http://login.b8n.cn/x" "login.b8n.cn" = true :=
  ⟨rfl, rfl⟩

/-- Claim C2, amended: `extract_qr_params` returns the extraction error
exactly when no script block both contains the login host substring and
matches the URL regex; on success the result is the parameter map of the
first such block's URL — which may contain any subset (possibly none) of
`sess`, `tm`, `sign`. -/
theorem claim_C2_amended (scripts : List String) :
    (extract_qr_params scripts = .error "Could not extract QR params" ↔
        ∀ sc ∈ scripts,
          strHas sc "login.b8n.cn" = false ∨ findUrl sc.data = none) ∧
      ∀ m, extract_qr_params scripts = .ok m →
        ∃ sc ∈ scripts, strHas sc "login.b8n.cn" = true ∧
          ∃ u, findUrl sc.data = some u ∧ m = paramMap u :=
  ⟨extract_error_iff scripts, fun m h => extract_ok_exists scripts m h⟩

/-- Claim C2, witness: the amended characterization applied to a concrete
page with no matching script block. -/
theorem claim_C2_amended_witness :
    extract_qr_params ["no match here"] = .error "Could not extract QR params" :=
  (claim_C2_amended ["no match here"]).1.mpr (by decide)

/-- Claim C3, counterexample: the id `7` occurs inside a card block carrying
the already-signed marker `已签` (and matches the `punchcard_` pattern
there), yet it is in the returned set, because a second, unmarked block also
yields it — the claim's per-input universal fails. -/
theorem claim_C3_counterexample :
    hasMarker "punchcard_7 已签" = true ∧
      cardIds "punchcard_7 已签" = ["7"] ∧
      getActiveTasks ["punchcard_7 已签", "punchcard_7"] = ["7"] :=
  ⟨rfl, rfl, rfl⟩

/-- Claim C3, amended: no id is ever extracted from a block containing the
already-signed marker — an id is in the returned set exactly when some block
without the marker yields it under one of the three patterns.  An id
occurring only inside marked blocks is never returned. -/
theorem claim_C3_amended (cards : List String) (x : String) :
    x ∈ getActiveTasks cards ↔
      ∃ c, c ∈ cards ∧ hasMarker c = false ∧ x ∈ cardIds c := by
  have h := mem_scanFold cards [] x
  simpa [getActiveTasks] using h

/-- Claim C3, witness: the amended characterization applied to a concrete
single-block listing. -/
theorem claim_C3_amended_witness : "7" ∈ getActiveTasks ["punchcard_7"] :=
  (claim_C3_amended ["punchcard_7"] "7").mpr
    ⟨"punchcard_7", by decide, by decide, by decide⟩

/-- Claim C4: a poll response whose `status` is not the integer 1 yields no
session (`Ok(None)`, still awaiting scan) and no completion request, while
`{"status": 1, "url": "https://x/y?foo=bar"}` makes `check_login` issue the
completion GET against `https://bj.k8n.cn/student/uidlogin?foo=bar`, the
fixed uid-login URL with the query-string tail of the `url` field
appended. -/
theorem claim_C4 :
    (∀ (u : String) (resp : PollResp), resp.status ≠ some 1 →
        check_login u resp = none ∧
          check_login_requests u resp = [base_qr_url ++ "?op=checklogin"]) ∧
      ∀ u : String,
        check_login_requests u
            { status := some 1, url := some "https://x/y?foo=bar" } =
          [base_qr_url ++ "?op=checklogin",
            "https://bj.k8n.cn/student/uidlogin?foo=bar"] := by
  constructor
  · intro u resp h
    constructor
    · unfold check_login
      rw [if_neg h]
    · unfold check_login_requests
      rw [if_neg h]
  · intro u
    rfl

/-- Claim C4, witness: the status-0 case evaluated at a concrete poll
response. -/
theorem claim_C4_witness :
    check_login base_qr_url { status := some 0, url := none } = none ∧
      check_login_requests base_qr_url { status := some 0, url := none } =
        [base_qr_url ++ "?op=checklogin"] :=
  claim_C4.1 base_qr_url { status := some 0, url := none } (by decide)

/-- Claim C6: for every extracted response text, a text containing either
success marker (`成功` or `Success`) classifies as `Ok` with the canonical
message `签到成功`; any other text classifies as `Err` carrying exactly the
first 50 characters of the trimmed text (hence at most 50 characters). -/
theorem claim_C6 (t : String) :
    ((strHas t "成功" = true ∨ strHas t "Success" = true) →
        perform_sign_result t = .ok "签到成功") ∧
      (strHas t "成功" = false → strHas t "Success" = false →
        perform_sign_result t =
            .error (String.mk ((charTrim t.data).take 50)) ∧
          (String.mk ((charTrim t.data).take 50)).length ≤ 50) := by
  constructor
  · intro h
    unfold perform_sign_result
    rcases h with h | h <;> simp [h]
  · intro h1 h2
    refine ⟨?_, ?_⟩
    · unfold perform_sign_result
      simp [h1, h2]
    · have h3 : (String.mk ((charTrim t.data).take 50)).length =
          ((charTrim t.data).take 50).length := rfl
      rw [h3, List.length_take]
      exact Nat.min_le_left _ _

/-- Claim C6, witness: the classification applied to one response text per
branch. -/
theorem claim_C6_witness :
    perform_sign_result "操作成功" = .ok "签到成功" ∧
      perform_sign_result "参数错误" =
        .error (String.mk ((charTrim ("参数错误" : String).data).take 50)) :=
  ⟨(claim_C6 "操作成功").1 (Or.inl (by decide)),
    ((claim_C6 "参数错误").2 (by decide) (by decide)).1⟩

/-- Claim C7: the opportunity scanner returns a duplicate-free set for every
listing, and a single block carrying both `punchcard_42` and
`punch_gps(42)` contributes the id `42` exactly once. -/
theorem claim_C7 :
    (∀ cards : List String, (getActiveTasks cards).Nodup) ∧
      getActiveTasks ["<div>punchcard_42 punch_gps(42)</div>"] = ["42"] := by
  constructor
  · intro cards
    exact nodup_scanFold cards [] List.nodup_nil
  · rfl

/-- Claim C8: one task execution dispatches exactly one notification per
opportunity (the title list has one entry per submission), and the title is
chosen by bucket — `"<name> Check-in Result"` when the submission outcome is
a success or the outcome message contains `出错` or `Error`, and
`"<name> Check-in Failed"` for every other failure. -/
theorem claim_C8 (name : String) (texts : List String) :
    (executeNotifs name texts).length = texts.length ∧
      ∀ i : Nat,
        (executeNotifs name texts)[i]? =
          (texts[i]?).map (fun t =>
            if ((perform_sign_result t).isOk
                || strHas (outcomeMsg (perform_sign_result t)) "出错"
                || strHas (outcomeMsg (perform_sign_result t)) "Error") = true then
              name ++ " Check-in Result"
            else name ++ " Check-in Failed") := by
  constructor
  · simp [executeNotifs]
  · intro i
    simp only [executeNotifs, List.getElem?_map]
    cases texts[i]? with
    | none => rfl
    | some t => simpa using notifTitle_eq name t

/-- Claim C9: with notifications disabled in configuration,
`send_wecom_notification` returns success and issues zero HTTP calls,
whatever the transport would have answered and whatever title and content
are supplied. -/
theorem claim_C9 (wecom : WeComConfig) (tr : WeComTransport)
    (title content : String) (h : wecom.enable = false) :
    send_wecom_notification wecom tr title content = (.ok (), 0) := by
  unfold send_wecom_notification
  simp [h]

/-- Claim C9, witness: the disabled notifier evaluated at a concrete
configuration and transport. -/
theorem claim_C9_witness :
    send_wecom_notification ⟨false, "", "", "", "@all"⟩ ⟨.ok none, .ok none⟩
        "t" "c" = (.ok (), 0) :=
  claim_C9 ⟨false, "", "", "", "@all"⟩ ⟨.ok none, .ok none⟩ "t" "c" rfl

/-- Claim C10: `check_login` is independent of its url argument — for any
two argument strings and the same poll response, both the returned value and
the issued requests (which always poll the handler's fixed base QR URL)
coincide. -/
theorem claim_C10 (u1 u2 : String) (resp : PollResp) :
    check_login u1 resp = check_login u2 resp ∧
      check_login_requests u1 resp = check_login_requests u2 resp :=
  ⟨rfl, rfl⟩

end AutoCheckin
